import Mathlib

/-!
Verification development for the Chan-theory analysis code of this repository.

Two implementations are embedded:
* `HubPy` — the batch analyzer `ChartAnalyzer` from `samples/chan/hub.py`
  (bar reduction, fractal detection, stroke construction, hub identification,
  MACD divergence detection).
* `ChanInd` — the streaming indicator `ChanTheoryIndicator` from
  `backtrader/indicators/chan_theory.py` (per-bar fractal detection, stroke
  update, hub update, buy/sell point classification).

Prices, which are floating point in the source, are modelled as rationals.
Timestamps are modelled by bar indices (the sources carry them along
unchanged; no logic branches on them).
-/

/-- Trend / stroke direction, as the `Direction` enum of both source files. -/
inductive Direction where
  | UP : Direction
  | DOWN : Direction
deriving DecidableEq, Repr, Inhabited

/-- The opposite direction. -/
def Direction.opp : Direction → Direction
  | Direction.UP => Direction.DOWN
  | Direction.DOWN => Direction.UP

/-- Fractal classification; the batch file calls it `FractalType` and the
indicator file declares the identical enum under the name `FractalsType`. -/
inductive FractalType where
  | NONE : FractalType
  | TOP : FractalType
  | BOTTOM : FractalType
deriving DecidableEq, Repr, Inhabited

/-- One OHLCV bar (a row of the DataFrame / one feed step).  Field names
follow the DataFrame columns used by `hub.py`. -/
structure Bar where
  Open : ℚ
  High : ℚ
  Low : ℚ
  Close : ℚ
  Volume : ℚ
deriving DecidableEq, Repr, Inhabited

/-- High of the `i`-th bar (0 when out of range; all uses are in range). -/
def highD (bars : List Bar) (i : Nat) : ℚ := (bars.getD i default).High

/-- Low of the `i`-th bar (0 when out of range; all uses are in range). -/
def lowD (bars : List Bar) (i : Nat) : ℚ := (bars.getD i default).Low

/-- Insertion of an element into an ascending-sorted rational list. -/
def insertAsc (x : ℚ) : List ℚ → List ℚ
  | [] => [x]
  | y :: ys => if x ≤ y then x :: y :: ys else y :: insertAsc x ys

/-- Ascending sort, modelling Python `list.sort()` on numbers. -/
def sortAsc : List ℚ → List ℚ
  | [] => []
  | x :: xs => insertAsc x (sortAsc xs)

/-- Insertion of an element into a descending-sorted rational list. -/
def insertDesc (x : ℚ) : List ℚ → List ℚ
  | [] => [x]
  | y :: ys => if y ≤ x then x :: y :: ys else y :: insertDesc x ys

/-- Descending sort, modelling Python `list.sort(reverse=True)`. -/
def sortDesc : List ℚ → List ℚ
  | [] => []
  | x :: xs => insertDesc x (sortDesc xs)

/-- `l[i]` for rational lists, with 0 as the (unused) out-of-range default. -/
def nthQ (l : List ℚ) (i : Nat) : ℚ := l.getD i 0

namespace HubPy

/-! ### Bar Reducer — `ChartAnalyzer._handle_inclusive_k_lines` -/

/-- Containment test between the previous reduced bar `p` and the current
bar `c`: one bar's range encloses the other's. -/
def hasInclusion (p c : Bar) : Prop :=
  (c.High ≤ p.High ∧ c.Low ≥ p.Low) ∨ (c.High ≥ p.High ∧ c.Low ≤ p.Low)

instance (p c : Bar) : Decidable (hasInclusion p c) := by
  unfold hasInclusion; infer_instance

/-- Merge of two bars in containment while the trend direction is UP:
keep the higher high and the higher low, keep the previous open, sum the
volumes, and take the close of the bar whose high survives. -/
def mergeUp (p c : Bar) : Bar :=
  { Open := p.Open
    High := max p.High c.High
    Low := max p.Low c.Low
    Close := if max p.High c.High = c.High then c.Close else p.Close
    Volume := p.Volume + c.Volume }

/-- Merge of two bars in containment while the trend direction is DOWN:
keep the lower high and the lower low, keep the previous open, sum the
volumes, and take the close of the bar whose low survives. -/
def mergeDown (p c : Bar) : Bar :=
  { Open := p.Open
    High := min p.High c.High
    Low := min p.Low c.Low
    Close := if min p.Low c.Low = c.Low then c.Close else p.Close
    Volume := p.Volume + c.Volume }

/-- One-direction dispatch of the containment merge. -/
def mergeK (dir : Direction) (p c : Bar) : Bar :=
  match dir with
  | Direction.UP => mergeUp p c
  | Direction.DOWN => mergeDown p c

/-- Direction update on a non-containment step: UP when the current bar has
both a strictly higher high and low, DOWN when both strictly lower,
otherwise unchanged. -/
def nextDirection (dir : Direction) (p c : Bar) : Direction :=
  if c.High > p.High ∧ c.Low > p.Low then Direction.UP
  else if c.High < p.High ∧ c.Low < p.Low then Direction.DOWN
  else dir

/-- The reduction loop: `prev` is the bar at position `i-1` of the mutable
DataFrame (already the result of earlier merges), `rest` the bars not yet
examined. -/
def inclusiveGo (dir : Direction) (prev : Bar) : List Bar → List Bar
  | [] => [prev]
  | c :: rest =>
    if hasInclusion prev c then
      inclusiveGo dir (mergeK dir prev c) rest
    else
      prev :: inclusiveGo (nextDirection dir prev c) c rest

/-- `_handle_inclusive_k_lines`: merge adjacent bars in containment, with
the initial direction defaulting to UP. -/
def handleInclusiveKLines (data : List Bar) : List Bar :=
  match data with
  | [] => []
  | b :: rest => inclusiveGo Direction.UP b rest

/-! ### Fractal Detector — `ChartAnalyzer._identify_fractals` -/

/-- A recorded fractal: type, center-bar index in the reduced series, and
the center bar's high (TOP) or low (BOTTOM). -/
structure Fractal where
  type : FractalType
  index : Nat
  price : ℚ
deriving DecidableEq, Repr, Inhabited

/-- Top-fractal window condition at center `i`: every bar of the
`2*fl - 1`-wide window other than the center has a strictly lower high. -/
def isTop (bars : List Bar) (fl i : Nat) : Prop :=
  ∀ j < 2 * fl - 1, j ≠ fl - 1 → highD bars (i - (fl - 1) + j) < highD bars i

/-- Bottom-fractal window condition at center `i`: every bar of the window
other than the center has a strictly higher low. -/
def isBottom (bars : List Bar) (fl i : Nat) : Prop :=
  ∀ j < 2 * fl - 1, j ≠ fl - 1 → lowD bars (i - (fl - 1) + j) > lowD bars i

instance (bars : List Bar) (fl i : Nat) : Decidable (isTop bars fl i) := by
  unfold isTop; infer_instance

instance (bars : List Bar) (fl i : Nat) : Decidable (isBottom bars fl i) := by
  unfold isBottom; infer_instance

/-- The fractal recorded at center `i` (the source appends a TOP when
`is_top`, otherwise a BOTTOM when `is_bottom`, otherwise nothing). -/
def fractalAt (bars : List Bar) (fl i : Nat) : Option Fractal :=
  if isTop bars fl i then some ⟨FractalType.TOP, i, highD bars i⟩
  else if isBottom bars fl i then some ⟨FractalType.BOTTOM, i, lowD bars i⟩
  else none

/-- The fractal classification of center `i` (NONE when `fractalAt`
records nothing there). -/
def fractalTypeAt (bars : List Bar) (fl i : Nat) : FractalType :=
  if isTop bars fl i then FractalType.TOP
  else if isBottom bars fl i then FractalType.BOTTOM
  else FractalType.NONE

/-- `_identify_fractals`: scan centers `fl-1 ≤ i ≤ len-fl`; with fewer than
`2*fl-1` bars nothing is scanned and the result is empty. -/
def identifyFractals (bars : List Bar) (fl : Nat) : List Fractal :=
  if bars.length < 2 * fl - 1 then []
  else
    (List.range bars.length).filterMap (fun i =>
      if fl - 1 ≤ i ∧ i + fl ≤ bars.length then fractalAt bars fl i else none)

/-! ### Stroke Builder — `ChartAnalyzer._construct_strokes` -/

/-- A finished stroke between two fractals. -/
structure Stroke where
  direction : Direction
  start_index : Nat
  end_index : Nat
  start_price : ℚ
  end_price : ℚ
  high : ℚ
  low : ℚ
deriving DecidableEq, Repr, Inhabited

/-- The stroke appended for direction `d` from anchor `a` to fractal `f`
(for UP the high is the end price and the low the start price; for DOWN
the converse). -/
def mkStroke (d : Direction) (a f : Fractal) : Stroke :=
  { direction := d
    start_index := a.index
    end_index := f.index
    start_price := a.price
    end_price := f.price
    high := if d = Direction.UP then f.price else a.price
    low := if d = Direction.UP then a.price else f.price }

/-- Loop state of `_construct_strokes`: `current_direction`,
`current_start` (the anchor fractal of the open stroke) and the strokes
recorded so far. -/
structure BState where
  direction : Option Direction
  start : Fractal
  strokes : List Stroke
deriving DecidableEq, Repr, Inhabited

/-- Direction establishment at the head of each `_construct_strokes`
iteration: while no direction exists, the first fractal whose type differs
from the very first fractal's type `ft` fixes it (first TOP means DOWN,
first BOTTOM means UP). -/
def stepDir (ft : FractalType) (s : BState) (f : Fractal) : Option Direction :=
  if s.direction = none ∧ f.type ≠ ft then
    some (if ft = FractalType.TOP then Direction.DOWN else Direction.UP)
  else s.direction

/-- One iteration of the `_construct_strokes` loop on fractal `f`;
`ft` is the type of the very first fractal (used to establish the initial
direction).  A same-type fractal may move the anchor to a more extreme
price; an opposite-type fractal creates a stroke exactly when its price
makes progress past the anchor in the current direction, flipping the
direction and re-anchoring; otherwise the state is unchanged. -/
def strokeStep (ft : FractalType) (s : BState) (f : Fractal) : BState :=
  let dir := stepDir ft s f
  if f.type = s.start.type then
    if (dir = some Direction.UP ∧ f.price > s.start.price) ∨
        (dir = some Direction.DOWN ∧ f.price < s.start.price) then
      { direction := dir, start := f, strokes := s.strokes }
    else
      { direction := dir, start := s.start, strokes := s.strokes }
  else
    -- Python tests `current_direction == Direction.UP` and treats every
    -- other value (DOWN; None is unreachable here) as DOWN.
    let d := if dir = some Direction.UP then Direction.UP else Direction.DOWN
    let valid :=
      if d = Direction.UP then f.price > s.start.price
      else f.price < s.start.price
    if valid then
      { direction := some d.opp
        start := f
        strokes := s.strokes ++ [mkStroke d s.start f] }
    else
      { direction := dir, start := s.start, strokes := s.strokes }

/-- `_construct_strokes`: fold the loop over the fractals after the first;
fewer than two fractals yield no strokes. -/
def constructStrokes (fractals : List Fractal) : List Stroke :=
  match fractals with
  | [] => []
  | f0 :: rest =>
    (rest.foldl (strokeStep f0.type) ⟨none, f0, []⟩).strokes

/-! ### Hub Constructor — `ChartAnalyzer._identify_hubs` -/

/-- A hub (consolidation zone): bounds, stroke index span, and the number
of strokes it absorbed. -/
structure Hub where
  top : ℚ
  bottom : ℚ
  start_index : Nat
  end_index : Nat
  strokes : Nat
deriving DecidableEq, Repr, Inhabited

/-- Hub extension loop (`while next_idx < len(self.strokes)` in the
source).  `highsS`/`lowsS` are the sorted highs and lows of the *initial*
`hub_strokes`-stroke window — the source never adds absorbed strokes to
them.  Returns the final hub and how many strokes were absorbed beyond the
initial window. -/
def extendGo (highsS lowsS : List ℚ) (hub : Hub) : List Stroke → Hub × Nat
  | [] => (hub, 0)
  | s :: rest =>
    if s.low ≤ hub.top ∧ s.high ≥ hub.bottom then
      let newTop := nthQ (sortDesc (highsS ++ [s.high])) 1
      let newBottom := nthQ (sortAsc (lowsS ++ [s.low])) 1
      if newTop > newBottom then
        let hub1 : Hub :=
          { hub with
            top := newTop
            bottom := newBottom
            end_index := s.end_index
            strokes := hub.strokes + 1 }
        let res := extendGo highsS lowsS hub1 rest
        (res.1, res.2 + 1)
      else (hub, 0)
    else (hub, 0)

/-- Outer loop of `_identify_hubs` over the window start index `i`.
`fuel` bounds the number of iterations; `identifyHubs` supplies enough
fuel for the loop to run to completion. -/
def hubsGo (strokes : List Stroke) (hs : Nat) : Nat → Nat → List Hub → List Hub
  | _, 0, acc => acc
  | i, fuel + 1, acc =>
    if i + hs ≤ strokes.length then
      let window := (strokes.drop i).take hs
      let highsS := sortDesc (window.map Stroke.high)
      let lowsS := sortAsc (window.map Stroke.low)
      let top := nthQ highsS 1
      let bottom := nthQ lowsS 1
      if top > bottom then
        let hub0 : Hub :=
          { top := top
            bottom := bottom
            start_index := (window.headD default).start_index
            end_index := (window.getLastD default).end_index
            strokes := hs }
        let res := extendGo highsS lowsS hub0 (strokes.drop (i + hs))
        hubsGo strokes hs (i + hs + res.2) fuel (acc ++ [res.1])
      else hubsGo strokes hs (i + 1) fuel acc
    else acc

/-- `_identify_hubs`: slide a `hub_strokes`-wide window over the strokes;
open a hub when the second-highest high exceeds the second-lowest low,
extend it over overlapping strokes, and restart after the absorbed span. -/
def identifyHubs (strokes : List Stroke) (hs : Nat) : List Hub :=
  if strokes.length < hs then []
  else hubsGo strokes hs 0 (strokes.length + 1) []

/-! ### Divergence Detector — `ChartAnalyzer._identify_macd_divergence` -/

/-- A recorded price/oscillator divergence between two same-type fractals
(the source labels the kind with a string; TOP stands for the
top-divergence label and BOTTOM for the bottom-divergence one). -/
structure Divergence where
  kind : FractalType
  first_idx : Nat
  second_idx : Nat
  first_price : ℚ
  second_price : ℚ
  first_macd : ℚ
  second_macd : ℚ
deriving DecidableEq, Repr, Inhabited

/-- Top-divergence test for a consecutive pair of TOP fractals: price makes
a new high while the oscillator does not. -/
def divCheckTop (macd : Nat → ℚ) (p c : Fractal) : Option Divergence :=
  if c.price > p.price ∧ macd c.index ≤ macd p.index then
    some ⟨FractalType.TOP, p.index, c.index, p.price, c.price,
      macd p.index, macd c.index⟩
  else none

/-- Bottom-divergence test for a consecutive pair of BOTTOM fractals:
price makes a new low while the oscillator does not. -/
def divCheckBottom (macd : Nat → ℚ) (p c : Fractal) : Option Divergence :=
  if c.price < p.price ∧ macd c.index ≥ macd p.index then
    some ⟨FractalType.BOTTOM, p.index, c.index, p.price, c.price,
      macd p.index, macd c.index⟩
  else none

/-- Consecutive pairs `(l[i-1], l[i])` of a list. -/
def pairs (l : List Fractal) : List (Fractal × Fractal) := l.zip l.tail

/-- `_identify_macd_divergence`, parameterized by the oscillator value at
each bar index: scan consecutive pairs of TOP fractals, then consecutive
pairs of BOTTOM fractals. -/
def identifyMacdDivergence (fractals : List Fractal) (macd : Nat → ℚ) :
    List Divergence :=
  let tops := fractals.filter (fun f => f.type = FractalType.TOP)
  let bottoms := fractals.filter (fun f => f.type = FractalType.BOTTOM)
  (pairs tops).filterMap (fun pc => divCheckTop macd pc.1 pc.2) ++
    (pairs bottoms).filterMap (fun pc => divCheckBottom macd pc.1 pc.2)

/-- Exponential moving average with smoothing `2/(span+1)`, seeded by the
first value (`pandas ewm(span, adjust=False)`). -/
def emaGo (alpha : ℚ) (prev : ℚ) : List ℚ → List ℚ
  | [] => []
  | c :: rest =>
    let e := alpha * c + (1 - alpha) * prev
    e :: emaGo alpha e rest

/-- The EMA series of a close series. -/
def emaSeries (span : Nat) (closes : List ℚ) : List ℚ :=
  match closes with
  | [] => []
  | c :: rest => c :: emaGo (2 / ((span : ℚ) + 1)) c rest

/-- The MACD line of the source: `EMA(close,12) − EMA(close,26)`. -/
def macdSeries (closes : List ℚ) : List ℚ :=
  (emaSeries 12 closes).zipWith (fun a b => a - b) (emaSeries 26 closes)

/-! ### `ChartAnalyzer` batch pipeline -/

/-- The fractal list the batch analyzer computes for raw `data`:
reduce containment bars, then detect fractals. -/
def chartAnalyzerFractals (data : List Bar) (fl : Nat) : List Fractal :=
  identifyFractals (handleInclusiveKLines data) fl

/-- The divergence list the batch analyzer computes for raw `data`. -/
def chartAnalyzerDivergences (data : List Bar) (fl : Nat) : List Divergence :=
  let reduced := handleInclusiveKLines data
  identifyMacdDivergence (identifyFractals reduced fl)
    (fun i => nthQ (macdSeries (reduced.map Bar.Close)) i)

end HubPy

namespace ChanInd

/-! ### Streaming fractal detection — `ChanTheoryIndicator._identify_fractal`
and `_update_fractal_data`.

`hist` is the list of bars ingested so far (the current bar last); the
source reads `self.data.high[-i]`, i.e. the bar `i` positions before the
current one. -/

/-- Streaming top condition over the last `2*fl - 1` bars: the bar
`fl - 1` positions back has a strictly greater high than every other bar
of that window. -/
def isTopS (hist : List Bar) (fl : Nat) : Prop :=
  ∀ k < 2 * fl - 1, k ≠ fl - 1 →
    highD hist (hist.length - 1 - k) < highD hist (hist.length - fl)

/-- Streaming bottom condition over the last `2*fl - 1` bars. -/
def isBottomS (hist : List Bar) (fl : Nat) : Prop :=
  ∀ k < 2 * fl - 1, k ≠ fl - 1 →
    lowD hist (hist.length - 1 - k) > lowD hist (hist.length - fl)

instance (hist : List Bar) (fl : Nat) : Decidable (isTopS hist fl) := by
  unfold isTopS; infer_instance

instance (hist : List Bar) (fl : Nat) : Decidable (isBottomS hist fl) := by
  unfold isBottomS; infer_instance

/-- `_identify_fractal`: TOP wins over BOTTOM; otherwise NONE. -/
def identifyFractal (hist : List Bar) (fl : Nat) : FractalType :=
  if isTopS hist fl then FractalType.TOP
  else if isBottomS hist fl then FractalType.BOTTOM
  else FractalType.NONE

/-- An entry of the indicator's `fractal_data` list: the classification
together with the high, low and 1-based position of the *current* bar
(the bar at which the window completed, not the window's center). -/
structure FractalData where
  type : FractalType
  high : ℚ
  low : ℚ
  index : Nat
deriving DecidableEq, Repr, Inhabited

/-- `_update_fractal_data` on one detection: append the current bar's data. -/
def updateFractalData (fractal : FractalType) (curr : Bar) (count : Nat)
    (fd : List FractalData) : List FractalData :=
  match fractal with
  | FractalType.TOP => fd ++ [⟨FractalType.TOP, curr.High, curr.Low, count⟩]
  | FractalType.BOTTOM => fd ++ [⟨FractalType.BOTTOM, curr.High, curr.Low, count⟩]
  | FractalType.NONE => fd

/-- The `fractal_data` accumulated by driving `next()` over `bars`:
at the `n`-th bar (1-based count) nothing happens until `2*fl - 1` bars
are available; then the detected fractal, if any, is recorded. -/
def runFractals (bars : List Bar) (fl : Nat) : List FractalData :=
  (List.range bars.length).foldl
    (fun fd k =>
      let n := k + 1
      if n < 2 * fl - 1 then fd
      else
        let hist := bars.take n
        updateFractalData (identifyFractal hist fl)
          (hist.getLastD default) n fd)
    []

/-! ### Streaming strokes — `ChanTheoryIndicator._update_strokes` -/

/-- A stroke of the indicator: direction, extreme prices, and the 1-based
bar counts of its two end fractals. -/
structure Stroke where
  direction : Direction
  high : ℚ
  low : ℚ
  start_index : Nat
  end_index : Nat
deriving DecidableEq, Repr, Inhabited

/-- Replace the last element of a list (the source mutates
`self.strokes[-1]` in place). -/
def setLast (l : List Stroke) (s : Stroke) : List Stroke :=
  l.dropLast ++ [s]

/-- `_update_strokes`, called once after each newly recorded fractal:
with no stroke yet, the first two entries of `fractal_data` make the first
stroke when their types differ (with no price-validity test); afterwards
the newest fractal either extends the last stroke to a better extreme or
starts an opposite stroke when it passes the last stroke's start price. -/
def updateStrokes (fd : List FractalData) (strokes : List Stroke) :
    List Stroke :=
  if fd.length < 2 then strokes
  else
    match strokes with
    | [] =>
      let first := fd.headD default
      let second := (fd.drop 1).headD default
      if first.type ≠ second.type then
        if first.type = FractalType.TOP then
          [⟨Direction.DOWN, first.high, second.low, first.index, second.index⟩]
        else
          [⟨Direction.UP, second.high, first.low, first.index, second.index⟩]
      else []
    | _ :: _ =>
      let last := strokes.getLastD default
      let lastF := fd.getLastD default
      if last.direction = Direction.UP then
        if lastF.type = FractalType.TOP then
          if lastF.high > last.high then
            setLast strokes { last with high := lastF.high, end_index := lastF.index }
          else strokes
        else if lastF.type = FractalType.BOTTOM then
          if lastF.low < last.low then
            strokes ++
              [⟨Direction.DOWN, last.high, lastF.low, last.end_index, lastF.index⟩]
          else strokes
        else strokes
      else
        if lastF.type = FractalType.BOTTOM then
          if lastF.low < last.low then
            setLast strokes { last with low := lastF.low, end_index := lastF.index }
          else strokes
        else if lastF.type = FractalType.TOP then
          if lastF.high > last.high then
            strokes ++
              [⟨Direction.UP, lastF.high, last.low, last.end_index, lastF.index⟩]
          else strokes
        else strokes

/-- The strokes after feeding the entries of `fds` one at a time
(`_update_strokes` runs once per new fractal, seeing the prefix recorded
so far). -/
def runStrokes (fds : List FractalData) : List Stroke :=
  (List.range fds.length).foldl
    (fun st k => updateStrokes (fds.take (k + 1)) st) []

/-! ### Streaming hubs — `_update_hubs` / `_create_new_hub` -/

/-- A hub of the indicator. -/
structure Hub where
  top : ℚ
  bottom : ℚ
  start_index : Nat
  end_index : Nat
deriving DecidableEq, Repr, Inhabited

/-- `_create_new_hub`: build a hub from the last `hub_strokes` strokes
when the second-highest high exceeds the second-lowest low. -/
def createNewHub (hs : Nat) (strokes : List Stroke) (hubs : List Hub) :
    List Hub :=
  if strokes.length < hs then hubs
  else
    let recent := strokes.drop (strokes.length - hs)
    let highs := sortAsc (recent.map Stroke.high)
    let lows := sortAsc (recent.map Stroke.low)
    let top := nthQ highs (highs.length - 2)
    let bottom := nthQ lows 1
    if top > bottom then
      hubs ++ [⟨top, bottom, (recent.headD default).start_index,
        (recent.getLastD default).end_index⟩]
    else hubs

/-- Replace the last hub (the source mutates `self.hubs[-1]` in place). -/
def setLastHub (l : List Hub) (h : Hub) : List Hub :=
  l.dropLast ++ [h]

/-- `_update_hubs`: with no hub yet, try to create one; otherwise compare
the latest stroke against the last hub, creating a new hub on a full
breakout or stretching the broken boundary on a partial one. -/
def updateHubs (hs : Nat) (strokes : List Stroke) (hubs : List Hub) :
    List Hub :=
  if strokes.length < hs then hubs
  else
    match hubs with
    | [] => createNewHub hs strokes hubs
    | _ :: _ =>
      let lastHub := hubs.getLastD default
      let lastStroke := strokes.getLastD default
      if lastStroke.direction = Direction.UP then
        if lastStroke.low > lastHub.top then createNewHub hs strokes hubs
        else if lastStroke.high > lastHub.top ∧ lastStroke.low < lastHub.top then
          setLastHub hubs { lastHub with top := lastStroke.high }
        else hubs
      else
        if lastStroke.high < lastHub.bottom then createNewHub hs strokes hubs
        else if lastStroke.low < lastHub.bottom ∧ lastStroke.high > lastHub.bottom then
          setLastHub hubs { lastHub with bottom := lastStroke.low }
        else hubs

/-! ### Signal classifier — `ChanTheoryIndicator._identify_buy_sell_points` -/

/-- The six signal lines of one bar (`true` models the line set to 1). -/
structure Signals where
  buy1 : Bool
  buy2 : Bool
  buy3 : Bool
  sell1 : Bool
  sell2 : Bool
  sell3 : Bool
deriving DecidableEq, Repr, Inhabited

/-- All lines at their per-bar default of 0. -/
def noSignals : Signals := ⟨false, false, false, false, false, false⟩

/-- `_identify_buy_sell_points`: requires a hub and `hub_strokes + 1`
strokes, then classifies the three buy and three sell point types from the
latest stroke, hub, fractal and the oscillator state (`macd0`/`sig0` are
the MACD and signal values at the current bar, `macd1`/`sig1` one bar
back). -/
def identifyBuySellPoints (hs : Nat) (hubs : List Hub) (strokes : List Stroke)
    (fd : List FractalData) (macd0 sig0 macd1 sig1 : ℚ) : Signals :=
  if hubs = [] ∨ strokes.length < hs + 1 then noSignals
  else
    let lastHub := hubs.getLastD default
    let last := strokes.getLastD default
    let rev := strokes.reverse
    let prev2 := rev.getD 1 default
    let prev3 := rev.getD 2 default
    let lastF := fd.getLastD default
    { buy1 := last.direction = Direction.UP ∧ 2 ≤ fd.length ∧
        lastF.type = FractalType.BOTTOM ∧ lastF.low < lastHub.bottom ∧
        macd0 > sig0 ∧ macd1 ≤ sig1
      buy2 := last.direction = Direction.UP ∧ 3 ≤ strokes.length ∧
        prev3.direction = Direction.UP ∧ last.low > prev3.low
      buy3 := last.direction = Direction.UP ∧ 2 ≤ strokes.length ∧
        prev2.high > lastHub.top ∧ last.low > lastHub.top
      sell1 := last.direction = Direction.DOWN ∧ 2 ≤ fd.length ∧
        lastF.type = FractalType.TOP ∧ lastF.high > lastHub.top ∧
        macd0 < sig0 ∧ macd1 ≥ sig1
      sell2 := last.direction = Direction.DOWN ∧ 3 ≤ strokes.length ∧
        prev3.direction = Direction.DOWN ∧ last.high < prev3.high
      sell3 := last.direction = Direction.DOWN ∧ 2 ≤ strokes.length ∧
        prev2.low < lastHub.bottom ∧ last.high < lastHub.bottom }

end ChanInd

/-! ### Concrete fixtures -/

/-- A bar with the given high and low (open at the low, close at the high,
unit volume); the analysis logic only branches on highs and lows. -/
def mkBar (h l : ℚ) : Bar :=
  { Open := l, High := h, Low := l, Close := h, Volume := 1 }

/-- Five bars whose last two are absorbed by containment merges during bar
reduction (highs 10,12,15,14,13; lows 1,2,3,4,5). -/
def barsIncl : List Bar :=
  [mkBar 10 1, mkBar 12 2, mkBar 15 3, mkBar 14 4, mkBar 13 5]

/-- Three bars whose middle bar engulfs its neighbours: highs 5,9,5 and
lows 4,1,4, so the center is simultaneously a strict high and a strict
low extremum. -/
def barsEngulf : List Bar := [mkBar 5 4, mkBar 9 1, mkBar 5 4]

/-- The spec's window example: highs 1,2,3,2,1 (lows one below). -/
def barsWindow : List Bar :=
  [mkBar 1 0, mkBar 2 1, mkBar 3 2, mkBar 2 1, mkBar 1 0]

/-- A BOTTOM fractal record (streaming form) at price level 10. -/
def fdB10 : ChanInd.FractalData := ⟨FractalType.BOTTOM, 10, 10, 1⟩

/-- A TOP fractal record (streaming form) with high 7. -/
def fdT7 : ChanInd.FractalData := ⟨FractalType.TOP, 7, 6, 2⟩

/-- A batch stroke with the given high and low (remaining fields are not
read by the hub constructor). -/
def mkStrokeHL (h l : ℚ) (i : Nat) : HubPy.Stroke :=
  ⟨Direction.UP, i, i + 1, l, h, h, l⟩

/-- Five strokes: the first three open a hub with top 11 and bottom 8, and
the last two overlap it and are absorbed. -/
def strokesAbsorb : List HubPy.Stroke :=
  [mkStrokeHL 10 8 0, mkStrokeHL 12 9 1, mkStrokeHL 11 7 2,
    mkStrokeHL 20 10 3, mkStrokeHL 19 11 4]

/-- Four strokes: the first three open a hub with top 11 and bottom 8, and
the fourth (low 12) lies entirely above it. -/
def strokesClose : List HubPy.Stroke :=
  [mkStrokeHL 10 8 0, mkStrokeHL 12 9 1, mkStrokeHL 11 7 2,
    mkStrokeHL 13 12 3]

/-- An outer bar for the containment merge example. -/
def pBar : Bar := { Open := 5, High := 10, Low := 0, Close := 5, Volume := 1 }

/-- A bar contained in `pBar`. -/
def cBar : Bar := { Open := 6, High := 8, Low := 2, Close := 6, Volume := 1 }

/-- The spec's stroke-validity scenario after TOP@10 and BOTTOM@8: the
DOWN stroke 10→8 has been recorded, the direction flipped to UP, and the
BOTTOM@8 fractal is the pending anchor. -/
def sAnchor : HubPy.BState :=
  { direction := some Direction.UP
    start := ⟨FractalType.BOTTOM, 1, 8⟩
    strokes := [HubPy.mkStroke Direction.DOWN ⟨FractalType.TOP, 0, 10⟩
      ⟨FractalType.BOTTOM, 1, 8⟩] }

/-- The second TOP of that scenario, at price 7 (below the anchor's 8). -/
def fTop7 : HubPy.Fractal := ⟨FractalType.TOP, 2, 7⟩

/-- An open hub with top 11 and bottom 8 (bounds of the `strokesClose`
window). -/
def hubEx : HubPy.Hub := ⟨11, 8, 0, 3, 3⟩

/-- A stroke lying entirely above `hubEx` (low 12 > top 11). -/
def strokeAbove : HubPy.Stroke := mkStrokeHL 13 12 3

/-- Two TOP fractals at prices 100 and 105 (batch form). -/
def fractalsDiv : List HubPy.Fractal :=
  [⟨FractalType.TOP, 0, 100⟩, ⟨FractalType.TOP, 1, 105⟩]

/-- Oscillator values 2.0 at bar 0 and 1.5 at bar 1. -/
def macdEx : Nat → ℚ := fun i => if i = 0 then 2 else 3 / 2

/-- A streaming hub with top 11 and bottom 8. -/
def hubS : ChanInd.Hub := ⟨11, 8, 0, 3⟩

/-- Two streaming strokes: one breaking above `hubS` and an UP retest
holding above its top. -/
def strokesS : List ChanInd.Stroke :=
  [⟨Direction.DOWN, 14, 12, 0, 1⟩, ⟨Direction.UP, 15, 13, 1, 2⟩]

/-! ### Theorems -/

/-- C1 counterexample: on the same five bars with `fractal_len = 3`, the
batch `ChartAnalyzer` (which reduces containment bars first) records no
fractal at all, while the streaming `ChanTheoryIndicator` (which never
reduces bars) records one; the two implementations do not produce the same
fractal sequences, so they are not equivalent. -/
theorem c1_counterexample :
    (HubPy.chartAnalyzerFractals barsIncl 3).length = 0 ∧
    (ChanInd.runFractals barsIncl 3).length = 1 := by decide

/-- C2 counterexample: on three bars whose middle bar engulfs both
neighbours (`fractal_len = 2`), the full window is available and the
BOTTOM condition (center low strictly below every other low) holds at
position 1, yet no BOTTOM fractal is emitted — the code emits the TOP
fractal instead, so the claimed BOTTOM iff fails. -/
theorem c2_counterexample :
    2 * 2 - 1 ≤ barsEngulf.length ∧
    (2 - 1 ≤ 1 ∧ 1 + 2 ≤ barsEngulf.length) ∧
    HubPy.isBottom barsEngulf 2 1 ∧
    ¬ ∃ f ∈ HubPy.identifyFractals barsEngulf 2,
        f.type = FractalType.BOTTOM := by decide

/-- C3 counterexample: feeding the spec's bars (highs 1,2,3,2,1) to the
streaming indicator with `fractal_len = 3`, the TOP fractal is recorded
with the *current* (fifth) bar's high 1 and position 5, not with the
center bar's high 3 at the center position 2. -/
theorem c3_counterexample :
    ChanInd.runFractals barsWindow 3 = [⟨FractalType.TOP, 1, 0, 5⟩] ∧
    highD barsWindow 2 = 3 ∧ ((1 : ℚ) ≠ 3 ∧ (5 : Nat) ≠ 2) := by decide

/-- C4 counterexample: the streaming stroke builder creates its first
stroke from any two opposite-type fractals with no price-validity test:
after a BOTTOM anchored at 10 and a TOP at 7 it records an UP stroke whose
end price 7 does not exceed the anchor price 10. -/
theorem c4_counterexample :
    ChanInd.updateStrokes [fdB10, fdT7] [] =
      [⟨Direction.UP, 7, 10, 1, 2⟩] ∧ ¬ ((7 : ℚ) > 10) := by decide

/-- C6 counterexample: after absorbing the fourth stroke (high 20, low 10)
the hub has top 12; when the fifth stroke (high 19, low 11) is absorbed the
code recomputes the top over the *initial three-stroke window* plus the
fifth stroke only, leaving top 12, whereas the second-highest high over all
absorbed strokes plus the new one is 19. -/
theorem c6_counterexample :
    (HubPy.identifyHubs strokesAbsorb 3).map HubPy.Hub.top = [12] ∧
    (HubPy.identifyHubs strokesAbsorb 3).map HubPy.Hub.strokes = [5] ∧
    nthQ (sortDesc [10, 12, 11, 20, 19]) 1 = 19 ∧ ((12 : ℚ) ≠ 19) := by decide

/-- C8 counterexample: merging the contained bar (high 8, low 2) into the
outer bar (high 10, low 0) under trend UP yields low 2, so the outer bar's
low 0 lies outside the merged bar's range — the merged bar does not carry
the extremes of both inputs. -/
theorem c8_counterexample :
    HubPy.hasInclusion pBar cBar ∧
    (HubPy.mergeUp pBar cBar).Low = 2 ∧ pBar.Low = 0 ∧
    ¬ ((HubPy.mergeUp pBar cBar).Low ≤ pBar.Low) := by decide

/-- Membership in the batch fractal list: exactly the records produced by
`fractalAt` at a center with a full window. -/
theorem mem_identifyFractals {bars : List Bar} {fl : Nat} {f : HubPy.Fractal}
    (hfl : 1 ≤ fl) :
    f ∈ HubPy.identifyFractals bars fl ↔
      ∃ i, (fl - 1 ≤ i ∧ i + fl ≤ bars.length) ∧
        HubPy.fractalAt bars fl i = some f := by
  unfold HubPy.identifyFractals
  split
  · rename_i hlen
    simp only [List.not_mem_nil, false_iff]
    rintro ⟨i, ⟨h1, h2⟩, -⟩
    omega
  · rw [List.mem_filterMap]
    constructor
    · rintro ⟨i, hi, heq⟩
      split at heq
      · exact ⟨i, by assumption, heq⟩
      · exact absurd heq (by simp)
    · rintro ⟨i, hcond, heq⟩
      refine ⟨i, List.mem_range.mpr (by omega), ?_⟩
      rw [if_pos hcond]
      exact heq

/-- C3 (amended): in the batch analyzer each recorded fractal sits at the
strict-extremum center of its detection window and carries that center
bar's high (TOP) or low (BOTTOM); in particular bars with highs
`[1,2,3,2,1]` and `fractal_len = 3` yield exactly a TOP fractal at index 2
with price 3.  (The streaming indicator instead records the current bar's
values and position; see the counterexample.) -/
theorem c3_batch_center_recording :
    (∀ (bars : List Bar) (fl : Nat) (f : HubPy.Fractal), 1 ≤ fl →
        f ∈ HubPy.identifyFractals bars fl →
          (f.type = FractalType.TOP ∧ HubPy.isTop bars fl f.index ∧
            f.price = highD bars f.index) ∨
          (f.type = FractalType.BOTTOM ∧ HubPy.isBottom bars fl f.index ∧
            f.price = lowD bars f.index)) ∧
    HubPy.identifyFractals barsWindow 3 = [⟨FractalType.TOP, 2, 3⟩] := by
  constructor
  · intro bars fl f hfl hf
    rw [mem_identifyFractals hfl] at hf
    obtain ⟨i, -, heq⟩ := hf
    unfold HubPy.fractalAt at heq
    split at heq
    · injection heq with h
      subst h
      left
      exact ⟨rfl, by assumption, rfl⟩
    · split at heq
      · injection heq with h
        subst h
        right
        exact ⟨rfl, by assumption, rfl⟩
      · exact absurd heq (by simp)
  · decide

/-- C3 witness: the batch center-recording property at the spec's window
example. -/
theorem c3_batch_center_recording_witness :
    (FractalType.TOP = FractalType.TOP ∧ HubPy.isTop barsWindow 3 2 ∧
      (3 : ℚ) = highD barsWindow 2) ∨
    (FractalType.TOP = FractalType.BOTTOM ∧ HubPy.isBottom barsWindow 3 2 ∧
      (3 : ℚ) = lowD barsWindow 2) :=
  c3_batch_center_recording.1 barsWindow 3 ⟨FractalType.TOP, 2, 3⟩
    (by decide) (by decide)

/-- C2 (amended): with a full window, a TOP fractal is detected at a
center exactly when the center's high strictly dominates the window; a
BOTTOM is detected exactly when the center's low is strictly dominated
*and* the TOP condition does not also hold (the source checks TOP first,
so a bar that is simultaneously a strict high and a strict low extremum is
recorded as TOP only); with fewer than `2*fractal_len - 1` bars nothing is
emitted. -/
theorem c2_fractal_detection :
    ∀ (bars : List Bar) (fl : Nat), 1 ≤ fl →
      (∀ i : Nat,
        ((∃ f ∈ HubPy.identifyFractals bars fl,
            f.index = i ∧ f.type = FractalType.TOP) ↔
          (fl - 1 ≤ i ∧ i + fl ≤ bars.length ∧ HubPy.isTop bars fl i)) ∧
        ((∃ f ∈ HubPy.identifyFractals bars fl,
            f.index = i ∧ f.type = FractalType.BOTTOM) ↔
          (fl - 1 ≤ i ∧ i + fl ≤ bars.length ∧
            ¬ HubPy.isTop bars fl i ∧ HubPy.isBottom bars fl i))) ∧
      (bars.length < 2 * fl - 1 → HubPy.identifyFractals bars fl = []) := by
  intro bars fl hfl
  constructor
  · intro i
    constructor
    · constructor
      · rintro ⟨f, hf, hidx, htype⟩
        rw [mem_identifyFractals hfl] at hf
        obtain ⟨j, hcond, heq⟩ := hf
        unfold HubPy.fractalAt at heq
        split at heq
        · injection heq with h
          subst h
          cases hidx
          exact ⟨hcond.1, hcond.2, by assumption⟩
        · split at heq
          · injection heq with h
            subst h
            simp at htype
          · exact absurd heq (by simp)
      · rintro ⟨h1, h2, htop⟩
        refine ⟨⟨FractalType.TOP, i, highD bars i⟩, ?_, rfl, rfl⟩
        rw [mem_identifyFractals hfl]
        refine ⟨i, ⟨h1, h2⟩, ?_⟩
        unfold HubPy.fractalAt
        rw [if_pos htop]
    · constructor
      · rintro ⟨f, hf, hidx, htype⟩
        rw [mem_identifyFractals hfl] at hf
        obtain ⟨j, hcond, heq⟩ := hf
        unfold HubPy.fractalAt at heq
        split at heq
        · injection heq with h
          subst h
          simp at htype
        · split at heq
          · injection heq with h
            subst h
            cases hidx
            exact ⟨hcond.1, hcond.2, by assumption, by assumption⟩
          · exact absurd heq (by simp)
      · rintro ⟨h1, h2, htop, hbot⟩
        refine ⟨⟨FractalType.BOTTOM, i, lowD bars i⟩, ?_, rfl, rfl⟩
        rw [mem_identifyFractals hfl]
        refine ⟨i, ⟨h1, h2⟩, ?_⟩
        unfold HubPy.fractalAt
        rw [if_neg htop, if_pos hbot]
  · intro hlen
    unfold HubPy.identifyFractals
    rw [if_pos hlen]

/-- C2 witness: the detection characterization applied to the window
example produces the TOP fractal at center 2. -/
theorem c2_fractal_detection_witness :
    ∃ f ∈ HubPy.identifyFractals barsWindow 3,
      f.index = 2 ∧ f.type = FractalType.TOP :=
  ((c2_fractal_detection barsWindow 3 (by decide)).1 2).1.mpr
    ⟨by decide, by decide, by decide⟩

/-- C4: in the batch stroke builder, once a direction is established an
opposite-type fractal creates a stroke from the pending anchor exactly
when its price strictly exceeds (UP) or is strictly below (DOWN) the
anchor's price, in which case the direction flips and the fractal becomes
the new anchor; when the validity test fails the whole state — strokes,
anchor and direction — is left unchanged. -/
theorem c4_batch_stroke_validity :
    ∀ (ft : FractalType) (s : HubPy.BState) (f : HubPy.Fractal)
      (d : Direction), s.direction = some d → f.type ≠ s.start.type →
      (((d = Direction.UP ∧ f.price > s.start.price) ∨
          (d = Direction.DOWN ∧ f.price < s.start.price)) →
        HubPy.strokeStep ft s f =
          ⟨some d.opp, f, s.strokes ++ [HubPy.mkStroke d s.start f]⟩) ∧
      (¬ ((d = Direction.UP ∧ f.price > s.start.price) ∨
          (d = Direction.DOWN ∧ f.price < s.start.price)) →
        HubPy.strokeStep ft s f = s) := by
  intro ft s f d
  obtain ⟨sdir, sstart, sstrokes⟩ := s
  intro hdir htype
  simp only at hdir htype
  subst hdir
  cases d
  case UP =>
    constructor
    · rintro (⟨-, hp⟩ | ⟨h, -⟩)
      · simp [HubPy.strokeStep, HubPy.stepDir, htype, hp, Direction.opp]
      · exact absurd h (by decide)
    · intro hnv
      have hp : ¬ f.price > sstart.price := fun hc => hnv (Or.inl ⟨rfl, hc⟩)
      simp [HubPy.strokeStep, HubPy.stepDir, htype, hp]
  case DOWN =>
    constructor
    · rintro (⟨h, -⟩ | ⟨-, hp⟩)
      · exact absurd h (by decide)
      · simp [HubPy.strokeStep, HubPy.stepDir, htype, hp, Direction.opp]
    · intro hnv
      have hp : ¬ f.price < sstart.price := fun hc => hnv (Or.inr ⟨rfl, hc⟩)
      simp [HubPy.strokeStep, HubPy.stepDir, htype, hp]

/-- C4 witness: after TOP@10 → BOTTOM@8, a second TOP at 7 fails the
validity test, so no UP stroke is created and the BOTTOM@8 anchor stays
pending (the state is unchanged). -/
theorem c4_batch_stroke_validity_witness :
    HubPy.strokeStep FractalType.TOP sAnchor fTop7 = sAnchor :=
  (c4_batch_stroke_validity FractalType.TOP sAnchor fTop7 Direction.UP
    rfl (by decide)).2 (by decide)

/-- C8 (amended): an UP-direction containment merge keeps the higher high
and the higher low (discarding the lower of the two lows), sums the
volumes, and takes the close of the bar that contributed the surviving
high; both input bars' highs lie inside the merged bar's range, but (see
the counterexample) the lower input low can fall outside it. -/
theorem c8_merge_up :
    ∀ p c : Bar, HubPy.hasInclusion p c → p.Low ≤ p.High → c.Low ≤ c.High →
      (HubPy.mergeUp p c).High = max p.High c.High ∧
      (HubPy.mergeUp p c).Low = max p.Low c.Low ∧
      (HubPy.mergeUp p c).Open = p.Open ∧
      (HubPy.mergeUp p c).Volume = p.Volume + c.Volume ∧
      ((HubPy.mergeUp p c).High = c.High → (HubPy.mergeUp p c).Close = c.Close) ∧
      ((HubPy.mergeUp p c).High ≠ c.High → (HubPy.mergeUp p c).Close = p.Close) ∧
      ((HubPy.mergeUp p c).Low ≤ p.High ∧ p.High ≤ (HubPy.mergeUp p c).High) ∧
      ((HubPy.mergeUp p c).Low ≤ c.High ∧ c.High ≤ (HubPy.mergeUp p c).High) := by
  intro p c hinc hp hc
  refine ⟨rfl, rfl, rfl, rfl, ?_, ?_, ?_, ?_⟩
  · intro h
    simp only [HubPy.mergeUp] at h ⊢
    rw [if_pos h]
  · intro h
    simp only [HubPy.mergeUp] at h ⊢
    rw [if_neg h]
  · constructor
    · simp only [HubPy.mergeUp]
      rcases hinc with ⟨h1, h2⟩ | ⟨h1, h2⟩
      · exact max_le hp (le_trans hc h1)
      · exact max_le hp (le_trans h2 hp)
    · exact le_max_left _ _
  · constructor
    · simp only [HubPy.mergeUp]
      rcases hinc with ⟨h1, h2⟩ | ⟨h1, h2⟩
      · exact max_le (le_trans h2 hc) hc
      · exact max_le (le_trans hp h1) hc
    · exact le_max_right _ _

/-- C8 witness: the UP merge properties at the concrete containment pair
(high 10 / low 0 absorbing high 8 / low 2). -/
theorem c8_merge_up_witness :
    (HubPy.mergeUp pBar cBar).High = max pBar.High cBar.High ∧
    (HubPy.mergeUp pBar cBar).Low = max pBar.Low cBar.Low ∧
    (HubPy.mergeUp pBar cBar).Open = pBar.Open ∧
    (HubPy.mergeUp pBar cBar).Volume = pBar.Volume + cBar.Volume ∧
    ((HubPy.mergeUp pBar cBar).High = cBar.High →
      (HubPy.mergeUp pBar cBar).Close = cBar.Close) ∧
    ((HubPy.mergeUp pBar cBar).High ≠ cBar.High →
      (HubPy.mergeUp pBar cBar).Close = pBar.Close) ∧
    ((HubPy.mergeUp pBar cBar).Low ≤ pBar.High ∧
      pBar.High ≤ (HubPy.mergeUp pBar cBar).High) ∧
    ((HubPy.mergeUp pBar cBar).Low ≤ cBar.High ∧
      cBar.High ≤ (HubPy.mergeUp pBar cBar).High) :=
  c8_merge_up pBar cBar (by decide) (by decide) (by decide)

/-- C7: for every consecutive pair of same-type fractals, the divergence
record for that pair is in the output exactly when price makes a new
extreme while the oscillator fails to (TOP: higher price, oscillator not
higher; BOTTOM: lower price, oscillator not lower). -/
theorem c7_divergence :
    ∀ (fractals : List HubPy.Fractal) (macd : Nat → ℚ),
      (∀ p c : HubPy.Fractal,
        (p, c) ∈ HubPy.pairs
            (fractals.filter (fun f => f.type = FractalType.TOP)) →
        ((⟨FractalType.TOP, p.index, c.index, p.price, c.price,
            macd p.index, macd c.index⟩ : HubPy.Divergence) ∈
            HubPy.identifyMacdDivergence fractals macd ↔
          (c.price > p.price ∧ macd c.index ≤ macd p.index))) ∧
      (∀ p c : HubPy.Fractal,
        (p, c) ∈ HubPy.pairs
            (fractals.filter (fun f => f.type = FractalType.BOTTOM)) →
        ((⟨FractalType.BOTTOM, p.index, c.index, p.price, c.price,
            macd p.index, macd c.index⟩ : HubPy.Divergence) ∈
            HubPy.identifyMacdDivergence fractals macd ↔
          (c.price < p.price ∧ macd c.index ≥ macd p.index))) := by
  intro fractals macd
  constructor
  · intro p c hmem
    constructor
    · intro hd
      simp only [HubPy.identifyMacdDivergence, List.mem_append,
        List.mem_filterMap] at hd
      rcases hd with ⟨pc, -, heq⟩ | ⟨pc, -, heq⟩
      · unfold HubPy.divCheckTop at heq
        split at heq
        · rename_i hcond
          injection heq with h
          simp only [HubPy.Divergence.mk.injEq] at h
          obtain ⟨-, hi1, hi2, hp1, hp2, -, -⟩ := h
          rw [hi1, hi2, hp1, hp2] at hcond
          exact hcond
        · exact absurd heq (by simp)
      · unfold HubPy.divCheckBottom at heq
        split at heq
        · injection heq with h
          simp only [HubPy.Divergence.mk.injEq] at h
          exact absurd h.1 (by decide)
        · exact absurd heq (by simp)
    · intro hcond
      simp only [HubPy.identifyMacdDivergence, List.mem_append,
        List.mem_filterMap]
      left
      refine ⟨(p, c), hmem, ?_⟩
      unfold HubPy.divCheckTop
      rw [if_pos hcond]
  · intro p c hmem
    constructor
    · intro hd
      simp only [HubPy.identifyMacdDivergence, List.mem_append,
        List.mem_filterMap] at hd
      rcases hd with ⟨pc, -, heq⟩ | ⟨pc, -, heq⟩
      · unfold HubPy.divCheckTop at heq
        split at heq
        · injection heq with h
          simp only [HubPy.Divergence.mk.injEq] at h
          exact absurd h.1 (by decide)
        · exact absurd heq (by simp)
      · unfold HubPy.divCheckBottom at heq
        split at heq
        · rename_i hcond
          injection heq with h
          simp only [HubPy.Divergence.mk.injEq] at h
          obtain ⟨-, hi1, hi2, hp1, hp2, -, -⟩ := h
          rw [hi1, hi2, hp1, hp2] at hcond
          exact hcond
        · exact absurd heq (by simp)
    · intro hcond
      simp only [HubPy.identifyMacdDivergence, List.mem_append,
        List.mem_filterMap]
      right
      refine ⟨(p, c), hmem, ?_⟩
      unfold HubPy.divCheckBottom
      rw [if_pos hcond]

/-- C7 witness: two consecutive TOP fractals at prices 100 then 105 with
oscillator values 2.0 then 1.5 register a TOP divergence. -/
theorem c7_divergence_witness :
    (⟨FractalType.TOP, 0, 1, 100, 105, macdEx 0, macdEx 1⟩ :
        HubPy.Divergence) ∈
      HubPy.identifyMacdDivergence fractalsDiv macdEx :=
  ((c7_divergence fractalsDiv macdEx).1 ⟨FractalType.TOP, 0, 100⟩
      ⟨FractalType.TOP, 1, 105⟩ (by decide)).mpr
    ⟨by decide, by norm_num [macdEx]⟩

/-- C9: the signal classifier emits no signal at all unless at least one
hub and at least `hub_strokes + 1` strokes exist; when it runs (for a
valid configuration), the type-3 buy line is set exactly when the latest
stroke is UP, the previous stroke's high is strictly above the current
hub's top, and the latest stroke's low is strictly above the hub's top. -/
theorem c9_signal_guard_buy3 :
    ∀ (hs : Nat) (hubs : List ChanInd.Hub) (strokes : List ChanInd.Stroke)
      (fd : List ChanInd.FractalData) (macd0 sig0 macd1 sig1 : ℚ),
      ((hubs = [] ∨ strokes.length < hs + 1) →
        ChanInd.identifyBuySellPoints hs hubs strokes fd macd0 sig0 macd1
          sig1 = ChanInd.noSignals) ∧
      (1 ≤ hs → hubs ≠ [] → hs + 1 ≤ strokes.length →
        ((ChanInd.identifyBuySellPoints hs hubs strokes fd macd0 sig0 macd1
              sig1).buy3 = true ↔
          ((strokes.getLastD default).direction = Direction.UP ∧
            (strokes.reverse.getD 1 default).high >
              (hubs.getLastD default).top ∧
            (strokes.getLastD default).low > (hubs.getLastD default).top))) := by
  intro hs hubs strokes fd macd0 sig0 macd1 sig1
  constructor
  · intro hguard
    unfold ChanInd.identifyBuySellPoints
    rw [if_pos hguard]
  · intro h1 h2 h3
    unfold ChanInd.identifyBuySellPoints
    rw [if_neg (by push_neg; exact ⟨h2, by omega⟩)]
    simp only [decide_eq_true_eq]
    constructor
    · rintro ⟨ha, -, hb, hc⟩
      exact ⟨ha, hb, hc⟩
    · rintro ⟨ha, hb, hc⟩
      exact ⟨ha, by omega, hb, hc⟩

/-- C9 witness: with one hub (top 11) and two strokes, the buy3
characterization holds at the concrete breakout-retest configuration. -/
theorem c9_signal_guard_buy3_witness :
    (ChanInd.identifyBuySellPoints 1 [hubS] strokesS [] 0 0 0 0).buy3 =
        true ↔
      ((strokesS.getLastD default).direction = Direction.UP ∧
        (strokesS.reverse.getD 1 default).high >
          ([hubS].getLastD default).top ∧
        (strokesS.getLastD default).low > ([hubS].getLastD default).top) :=
  (c9_signal_guard_buy3 1 [hubS] strokesS [] 0 0 0 0).2 (by decide)
    (by decide) (by decide)

/-- The hub extension loop preserves a strictly positive hub interval. -/
theorem extendGo_bounds (hS lS : List ℚ) :
    ∀ (rest : List HubPy.Stroke) (hub : HubPy.Hub),
      hub.top > hub.bottom →
      (HubPy.extendGo hS lS hub rest).1.top >
        (HubPy.extendGo hS lS hub rest).1.bottom := by
  intro rest
  induction rest with
  | nil => intro hub h; exact h
  | cons s rest ih =>
    intro hub h
    unfold HubPy.extendGo
    split
    · simp only []
      split
      · rename_i hTB
        exact ih _ hTB
      · exact h
    · exact h

/-- The outer hub search loop only ever appends hubs with a strictly
positive interval. -/
theorem hubsGo_bounds (strokes : List HubPy.Stroke) (hs : Nat) :
    ∀ (fuel i : Nat) (acc : List HubPy.Hub),
      (∀ h ∈ acc, h.top > h.bottom) →
      ∀ h ∈ HubPy.hubsGo strokes hs i fuel acc, h.top > h.bottom := by
  intro fuel
  induction fuel with
  | zero => intro i acc hacc h hmem; exact hacc h hmem
  | succ n ih =>
    intro i acc hacc h hmem
    unfold HubPy.hubsGo at hmem
    split at hmem
    · simp only [] at hmem
      split at hmem
      · rename_i hTB
        refine ih _ _ ?_ h hmem
        intro h' hmem'
        rcases List.mem_append.mp hmem' with hin | hin
        · exact hacc h' hin
        · rw [List.mem_singleton] at hin
          subst hin
          exact extendGo_bounds _ _ _ _ hTB
      · exact ih _ _ hacc h hmem
    · exact hacc h hmem

/-- Any `getLastD` of a nonempty list is a member of the list. -/
theorem getLastD_mem {α : Type} (l : List α) (d : α) (h : l ≠ []) :
    l.getLastD d ∈ l := by
  rw [List.getLastD_eq_getLast?, List.getLast?_eq_getLast l h]
  exact List.getLast_mem h

/-- Members of `dropLast` are members of the list. -/
theorem mem_of_mem_dropLast {α : Type} {a : α} {l : List α}
    (h : a ∈ l.dropLast) : a ∈ l := by
  rw [List.dropLast_eq_take] at h
  exact List.take_subset _ _ h

/-- `_create_new_hub` only appends hubs with a strictly positive interval. -/
theorem createNewHub_bounds (hs : Nat) (strokes : List ChanInd.Stroke)
    (hubs : List ChanInd.Hub) (hacc : ∀ h ∈ hubs, h.top > h.bottom) :
    ∀ h ∈ ChanInd.createNewHub hs strokes hubs, h.top > h.bottom := by
  intro h hmem
  unfold ChanInd.createNewHub at hmem
  split at hmem
  · exact hacc h hmem
  · simp only [] at hmem
    split at hmem
    · rename_i hTB
      rcases List.mem_append.mp hmem with hin | hin
      · exact hacc h hin
      · rw [List.mem_singleton] at hin
        subst hin
        exact hTB
    · exact hacc h hmem

/-- C5: every hub either implementation ever stores satisfies
`top > bottom`: the batch search only records hubs whose second-highest
high exceeds their second-lowest low (and extensions re-check the bound),
and the streaming update preserves the property; on the spec's example
strokes with highs `[10,12,11]` and lows `[8,9,7]` the opening bounds are
top 11 and bottom 8, a valid hub. -/
theorem c5_hub_validity :
    (∀ (strokes : List HubPy.Stroke) (hs : Nat),
      ∀ h ∈ HubPy.identifyHubs strokes hs, h.top > h.bottom) ∧
    (∀ (hs : Nat) (strokes : List ChanInd.Stroke) (hubs : List ChanInd.Hub),
      (∀ h ∈ hubs, h.top > h.bottom) →
      ∀ h ∈ ChanInd.updateHubs hs strokes hubs, h.top > h.bottom) ∧
    (nthQ (sortDesc [10, 12, 11]) 1 = 11 ∧ nthQ (sortAsc [8, 9, 7]) 1 = 8 ∧
      ((11 : ℚ) > 8)) := by
  refine ⟨?_, ?_, by decide, by decide, by decide⟩
  · intro strokes hs h hmem
    unfold HubPy.identifyHubs at hmem
    split at hmem
    · exact absurd hmem (by simp)
    · exact hubsGo_bounds strokes hs _ _ [] (by simp) h hmem
  · intro hs strokes hubs hacc h hmem
    cases hubs with
    | nil =>
      unfold ChanInd.updateHubs at hmem
      split at hmem
      · exact hacc h hmem
      · exact createNewHub_bounds hs strokes [] hacc h hmem
    | cons hd tl =>
      have hlast : (hd :: tl).getLastD default ∈ hd :: tl :=
        getLastD_mem _ _ (by simp)
      unfold ChanInd.updateHubs at hmem
      split at hmem
      · exact hacc h hmem
      · simp only [] at hmem
        split at hmem
        · split at hmem
          · exact createNewHub_bounds hs strokes _ hacc h hmem
          · split at hmem
            · rename_i hcond
              unfold ChanInd.setLastHub at hmem
              rcases List.mem_append.mp hmem with hin | hin
              · exact hacc h (mem_of_mem_dropLast hin)
              · rw [List.mem_singleton] at hin
                subst hin
                exact lt_trans (hacc ((hd :: tl).getLastD default) hlast) hcond.1
            · exact hacc h hmem
        · split at hmem
          · exact createNewHub_bounds hs strokes _ hacc h hmem
          · split at hmem
            · rename_i hcond
              unfold ChanInd.setLastHub at hmem
              rcases List.mem_append.mp hmem with hin | hin
              · exact hacc h (mem_of_mem_dropLast hin)
              · rw [List.mem_singleton] at hin
                subst hin
                exact lt_trans hcond.1 (hacc ((hd :: tl).getLastD default) hlast)
            · exact hacc h hmem

/-- C5 witness: the batch hub built from the `strokesClose` window and a
streaming hub carried through an update both satisfy `top > bottom`. -/
theorem c5_hub_validity_witness :
    hubEx.top > hubEx.bottom ∧ hubS.top > hubS.bottom :=
  ⟨c5_hub_validity.1 strokesClose 3 hubEx (by decide),
    c5_hub_validity.2.1 3 [] [hubS] (by decide) hubS (by decide)⟩

/-- C6 (amended): while a hub is open, a stroke overlapping
`[bottom, top]` is absorbed with the bounds recomputed as the
second-highest high / second-lowest low over the hub's *initial*
`hub_strokes`-stroke window plus this one stroke (absorbed extension
strokes beyond the initial window are not re-included — see the
counterexample), extending only when the recomputed top exceeds the
recomputed bottom; a stroke entirely outside the interval closes the hub
unchanged and is not absorbed, as on the concrete four-stroke run where
the fourth stroke (low 12, above top 11) leaves the hub with its three
original strokes. -/
theorem c6_hub_absorption :
    (∀ (highsS lowsS : List ℚ) (hub : HubPy.Hub) (s : HubPy.Stroke)
        (rest : List HubPy.Stroke),
      (¬ (s.low ≤ hub.top ∧ s.high ≥ hub.bottom) →
        HubPy.extendGo highsS lowsS hub (s :: rest) = (hub, 0)) ∧
      ((s.low ≤ hub.top ∧ s.high ≥ hub.bottom) →
        (nthQ (sortDesc (highsS ++ [s.high])) 1 >
            nthQ (sortAsc (lowsS ++ [s.low])) 1 →
          HubPy.extendGo highsS lowsS hub (s :: rest) =
            ((HubPy.extendGo highsS lowsS
                { hub with
                  top := nthQ (sortDesc (highsS ++ [s.high])) 1
                  bottom := nthQ (sortAsc (lowsS ++ [s.low])) 1
                  end_index := s.end_index
                  strokes := hub.strokes + 1 } rest).1,
              (HubPy.extendGo highsS lowsS
                { hub with
                  top := nthQ (sortDesc (highsS ++ [s.high])) 1
                  bottom := nthQ (sortAsc (lowsS ++ [s.low])) 1
                  end_index := s.end_index
                  strokes := hub.strokes + 1 } rest).2 + 1)) ∧
        (¬ (nthQ (sortDesc (highsS ++ [s.high])) 1 >
            nthQ (sortAsc (lowsS ++ [s.low])) 1) →
          HubPy.extendGo highsS lowsS hub (s :: rest) = (hub, 0)))) ∧
    HubPy.identifyHubs strokesClose 3 = [⟨11, 8, 0, 3, 3⟩] := by
  constructor
  · intro highsS lowsS hub s rest
    refine ⟨?_, ?_⟩
    · intro hov
      unfold HubPy.extendGo
      rw [if_neg hov]
    · intro hov
      constructor
      · intro hTB
        rw [HubPy.extendGo, if_pos hov]
        simp only []
        rw [if_pos hTB]
      · intro hTB
        unfold HubPy.extendGo
        rw [if_pos hov]
        simp only []
        rw [if_neg hTB]
  · decide

/-- C6 witness: the closing step on the concrete hub — the fourth stroke
(low 12, entirely above top 11) closes the hub without being absorbed. -/
theorem c6_hub_absorption_witness :
    HubPy.extendGo (sortDesc [10, 12, 11]) (sortAsc [8, 9, 7]) hubEx
      [strokeAbove] = (hubEx, 0) :=
  (c6_hub_absorption.1 (sortDesc [10, 12, 11]) (sortAsc [8, 9, 7]) hubEx
      strokeAbove []).1 (by decide)

/-- Replacing the last element of an alternating chain by one with the
same direction keeps it alternating. -/
theorem chain'_replace_last {α : Type} (dir : α → Direction) (d : α)
    {l : List α} {x : α} (hne : l ≠ [])
    (h : List.Chain' (fun a b => dir b = (dir a).opp) l)
    (hd : dir x = dir (l.getLastD d)) :
    List.Chain' (fun a b => dir b = (dir a).opp) (l.dropLast ++ [x]) := by
  have hds : l.getLastD d = l.getLast hne := by
    rw [List.getLastD_eq_getLast?, List.getLast?_eq_getLast l hne]
    rfl
  have hsplit : l.dropLast ++ [l.getLast hne] = l :=
    List.dropLast_append_getLast hne
  rw [← hsplit] at h
  rw [List.chain'_append] at h ⊢
  obtain ⟨h1, -, h3⟩ := h
  refine ⟨h1, List.chain'_singleton _, ?_⟩
  intro a ha b hb
  rw [List.head?_cons, Option.mem_some_iff] at hb
  subst hb
  have := h3 a ha (l.getLast hne) (by simp)
  rw [hd, hds]
  exact this

/-- Appending an element whose direction is opposite to the last one keeps
a chain alternating. -/
theorem chain'_concat_opp {α : Type} (dir : α → Direction) (d : α)
    {l : List α} {x : α}
    (h : List.Chain' (fun a b => dir b = (dir a).opp) l)
    (hx : l ≠ [] → dir x = (dir (l.getLastD d)).opp) :
    List.Chain' (fun a b => dir b = (dir a).opp) (l ++ [x]) := by
  rw [List.chain'_append]
  refine ⟨h, List.chain'_singleton _, ?_⟩
  intro a ha b hb
  rw [List.head?_cons, Option.mem_some_iff] at hb
  subst hb
  have hne : l ≠ [] := by
    intro hl
    subst hl
    simp at ha
  have hds : l.getLastD d = l.getLast hne := by
    rw [List.getLastD_eq_getLast?, List.getLast?_eq_getLast l hne]
    rfl
  have ha' : a = l.getLast hne := by
    rw [List.getLast?_eq_getLast l hne, Option.mem_some_iff] at ha
    exact ha.symm
  rw [hx hne, hds, ha']

/-- One `_update_strokes` call preserves direction alternation of the
stroke list. -/
theorem updateStrokes_chain (fd : List ChanInd.FractalData)
    (st : List ChanInd.Stroke)
    (h : List.Chain' (fun a b => b.direction = a.direction.opp) st) :
    List.Chain' (fun a b => b.direction = a.direction.opp)
      (ChanInd.updateStrokes fd st) := by
  unfold ChanInd.updateStrokes
  split
  · exact h
  · cases st with
    | nil =>
      simp only []
      split
      · split
        · exact List.chain'_singleton _
        · exact List.chain'_singleton _
      · exact List.chain'_nil
    | cons s0 st0 =>
      simp only []
      split
      · rename_i hUP
        split
        · split
          · exact chain'_replace_last ChanInd.Stroke.direction default
              (by simp) h rfl
          · exact h
        · split
          · split
            · refine chain'_concat_opp ChanInd.Stroke.direction default h ?_
              intro _
              rw [hUP]
              rfl
            · exact h
          · exact h
      · rename_i hUP
        have hdn : ((s0 :: st0).getLastD default).direction = Direction.DOWN := by
          cases hh : ((s0 :: st0).getLastD default).direction
          · exact absurd hh hUP
          · rfl
        split
        · split
          · exact chain'_replace_last ChanInd.Stroke.direction default
              (by simp) h rfl
          · exact h
        · split
          · split
            · refine chain'_concat_opp ChanInd.Stroke.direction default h ?_
              intro _
              rw [hdn]
              rfl
            · exact h
          · exact h

/-- The streaming stroke run from an empty state is always alternating. -/
theorem runStrokes_chain (fds : List ChanInd.FractalData) :
    List.Chain' (fun a b => b.direction = a.direction.opp)
      (ChanInd.runStrokes fds) := by
  unfold ChanInd.runStrokes
  suffices hgen : ∀ (idxs : List Nat) (st : List ChanInd.Stroke),
      List.Chain' (fun a b => b.direction = a.direction.opp) st →
      List.Chain' (fun a b => b.direction = a.direction.opp)
        (idxs.foldl (fun st k => ChanInd.updateStrokes (fds.take (k + 1)) st)
          st) by
    exact hgen _ _ List.chain'_nil
  intro idxs
  induction idxs with
  | nil => intro st h; exact h
  | cons k ks ih =>
    intro st h
    exact ih _ (updateStrokes_chain _ _ h)

/-- One `_construct_strokes` iteration preserves alternation together with
the relation between the current direction and the last stroke. -/
theorem strokeStep_inv (ft : FractalType) (s : HubPy.BState)
    (f : HubPy.Fractal)
    (hchain : List.Chain' (fun a b => b.direction = a.direction.opp) s.strokes)
    (hdir : ∀ last, s.strokes.getLast? = some last →
      s.direction = some last.direction.opp) :
    List.Chain' (fun a b => b.direction = a.direction.opp)
        (HubPy.strokeStep ft s f).strokes ∧
      (∀ last, (HubPy.strokeStep ft s f).strokes.getLast? = some last →
        (HubPy.strokeStep ft s f).direction = some last.direction.opp) := by
  have hstep : ∀ last, s.strokes.getLast? = some last →
      HubPy.stepDir ft s f = s.direction := by
    intro last hlast
    unfold HubPy.stepDir
    rw [if_neg]
    simp [hdir last hlast]
  unfold HubPy.strokeStep
  simp only []
  split
  · split
    · refine ⟨hchain, ?_⟩
      intro last hlast
      replace hlast : s.strokes.getLast? = some last := hlast
      show HubPy.stepDir ft s f = some last.direction.opp
      rw [hstep last hlast]
      exact hdir last hlast
    · refine ⟨hchain, ?_⟩
      intro last hlast
      replace hlast : s.strokes.getLast? = some last := hlast
      show HubPy.stepDir ft s f = some last.direction.opp
      rw [hstep last hlast]
      exact hdir last hlast
  · split
    · rename_i hSD
      split
      · split
        · constructor
          · refine chain'_concat_opp HubPy.Stroke.direction default hchain ?_
            intro hne
            have hlast := List.getLast?_eq_getLast s.strokes hne
            have hgd : s.strokes.getLastD default = s.strokes.getLast hne := by
              rw [List.getLastD_eq_getLast?, hlast]
              rfl
            show Direction.UP = ((s.strokes.getLastD default).direction).opp
            rw [hgd]
            have hinj : some ((s.strokes.getLast hne).direction).opp =
                some Direction.UP := by
              rw [← hdir _ hlast, ← hstep _ hlast]
              exact hSD
            injection hinj with h2
            rw [h2]
          · intro last' hlast'
            replace hlast' : (s.strokes ++
                [HubPy.mkStroke Direction.UP s.start f]).getLast? =
                some last' := hlast'
            rw [List.getLast?_concat] at hlast'
            injection hlast' with h2
            subst h2
            rfl
        · refine ⟨hchain, ?_⟩
          intro last hlast
          replace hlast : s.strokes.getLast? = some last := hlast
          show HubPy.stepDir ft s f = some last.direction.opp
          rw [hstep last hlast]
          exact hdir last hlast
      · rename_i hcontra
        exact absurd rfl hcontra
    · rename_i hSD
      split
      · rename_i hcontra
        exact absurd hcontra (by decide)
      · split
        · constructor
          · refine chain'_concat_opp HubPy.Stroke.direction default hchain ?_
            intro hne
            have hlast := List.getLast?_eq_getLast s.strokes hne
            have hgd : s.strokes.getLastD default = s.strokes.getLast hne := by
              rw [List.getLastD_eq_getLast?, hlast]
              rfl
            show Direction.DOWN = ((s.strokes.getLastD default).direction).opp
            rw [hgd]
            cases hcase : ((s.strokes.getLast hne).direction).opp
            · exfalso
              apply hSD
              rw [hstep _ hlast, hdir _ hlast, hcase]
            · rfl
          · intro last' hlast'
            replace hlast' : (s.strokes ++
                [HubPy.mkStroke Direction.DOWN s.start f]).getLast? =
                some last' := hlast'
            rw [List.getLast?_concat] at hlast'
            injection hlast' with h2
            subst h2
            rfl
        · refine ⟨hchain, ?_⟩
          intro last hlast
          replace hlast : s.strokes.getLast? = some last := hlast
          show HubPy.stepDir ft s f = some last.direction.opp
          rw [hstep last hlast]
          exact hdir last hlast

/-- C10: in both implementations the stroke directions strictly
alternate: each newly appended stroke has the direction opposite to the
previous stroke's, for every input fractal sequence. -/
theorem c10_stroke_alternation :
    (∀ fractals : List HubPy.Fractal,
      List.Chain' (fun a b => b.direction = a.direction.opp)
        (HubPy.constructStrokes fractals)) ∧
    (∀ fds : List ChanInd.FractalData,
      List.Chain' (fun a b => b.direction = a.direction.opp)
        (ChanInd.runStrokes fds)) := by
  constructor
  · intro fractals
    cases fractals with
    | nil => exact List.chain'_nil
    | cons f0 rest =>
      unfold HubPy.constructStrokes
      suffices hgen : ∀ (l : List HubPy.Fractal) (s : HubPy.BState),
          List.Chain' (fun a b => b.direction = a.direction.opp) s.strokes →
          (∀ last, s.strokes.getLast? = some last →
            s.direction = some last.direction.opp) →
          List.Chain' (fun a b => b.direction = a.direction.opp)
            (l.foldl (HubPy.strokeStep f0.type) s).strokes by
        refine hgen rest ⟨none, f0, []⟩ List.chain'_nil ?_
        intro last hlast
        simp at hlast
      intro l
      induction l with
      | nil => intro s h hd; exact h
      | cons g gs ih =>
        intro s h hd
        exact ih _ (strokeStep_inv f0.type s g h hd).1
          (strokeStep_inv f0.type s g h hd).2
  · exact runStrokes_chain

/-- `highD` does not change under a `take` that covers the index. -/
theorem highD_take {bars : List Bar} {n m : Nat} (h : m < n) :
    highD (bars.take n) m = highD bars m := by
  unfold highD
  rw [List.getD_eq_getElem?_getD, List.getD_eq_getElem?_getD,
    List.getElem?_take, if_pos h]

/-- `lowD` does not change under a `take` that covers the index. -/
theorem lowD_take {bars : List Bar} {n m : Nat} (h : m < n) :
    lowD (bars.take n) m = lowD bars m := by
  unfold lowD
  rw [List.getD_eq_getElem?_getD, List.getD_eq_getElem?_getD,
    List.getElem?_take, if_pos h]

/-- C1 (amended): the two implementations are not equivalent end to end
(see the counterexample: the indicator skips bar reduction), but they do
share the fractal-window predicate: on the same bar data, the streaming
detector at the bar count `n` classifies exactly as the batch detector
does at the window center `n - fractal_len`. -/
theorem c1_fractal_predicate_agree :
    ∀ (bars : List Bar) (fl n : Nat), 1 ≤ fl → 2 * fl - 1 ≤ n →
      n ≤ bars.length →
      ChanInd.identifyFractal (bars.take n) fl =
        HubPy.fractalTypeAt bars fl (n - fl) := by
  intro bars fl n hfl hn hlen
  have hlen' : (bars.take n).length = n := by
    rw [List.length_take]
    omega
  have htop : ChanInd.isTopS (bars.take n) fl ↔
      HubPy.isTop bars fl (n - fl) := by
    unfold ChanInd.isTopS HubPy.isTop
    rw [hlen']
    constructor
    · intro h j hj hne
      have hh := h (2 * fl - 2 - j) (by omega) (by omega)
      rw [highD_take (show n - 1 - (2 * fl - 2 - j) < n by omega),
        highD_take (show n - fl < n by omega)] at hh
      have e1 : n - 1 - (2 * fl - 2 - j) = n - fl - (fl - 1) + j := by omega
      rw [e1] at hh
      exact hh
    · intro h k hk hne
      rw [highD_take (show n - 1 - k < n by omega),
        highD_take (show n - fl < n by omega)]
      have hh := h (2 * fl - 2 - k) (by omega) (by omega)
      have e1 : n - fl - (fl - 1) + (2 * fl - 2 - k) = n - 1 - k := by omega
      rw [e1] at hh
      exact hh
  have hbot : ChanInd.isBottomS (bars.take n) fl ↔
      HubPy.isBottom bars fl (n - fl) := by
    unfold ChanInd.isBottomS HubPy.isBottom
    rw [hlen']
    constructor
    · intro h j hj hne
      have hh := h (2 * fl - 2 - j) (by omega) (by omega)
      rw [lowD_take (show n - 1 - (2 * fl - 2 - j) < n by omega),
        lowD_take (show n - fl < n by omega)] at hh
      have e1 : n - 1 - (2 * fl - 2 - j) = n - fl - (fl - 1) + j := by omega
      rw [e1] at hh
      exact hh
    · intro h k hk hne
      rw [lowD_take (show n - 1 - k < n by omega),
        lowD_take (show n - fl < n by omega)]
      have hh := h (2 * fl - 2 - k) (by omega) (by omega)
      have e1 : n - fl - (fl - 1) + (2 * fl - 2 - k) = n - 1 - k := by omega
      rw [e1] at hh
      exact hh
  unfold ChanInd.identifyFractal HubPy.fractalTypeAt
  by_cases h1 : HubPy.isTop bars fl (n - fl)
  · rw [if_pos (htop.mpr h1), if_pos h1]
  · rw [if_neg (fun hh => h1 (htop.mp hh)), if_neg h1]
    by_cases h2 : HubPy.isBottom bars fl (n - fl)
    · rw [if_pos (hbot.mpr h2), if_pos h2]
    · rw [if_neg (fun hh => h2 (hbot.mp hh)), if_neg h2]

/-- C1 witness: on the window-example bars at count 5 with
`fractal_len = 3`, the streaming detector and the batch detector at
center 2 agree (both see the TOP). -/
theorem c1_fractal_predicate_agree_witness :
    ChanInd.identifyFractal (barsWindow.take 5) 3 =
      HubPy.fractalTypeAt barsWindow 3 2 :=
  c1_fractal_predicate_agree barsWindow 3 5 (by decide) (by decide) (by decide)
